import Mathlib

/-!
Shallow embedding of the data-loading module of the grapple repository
(src/grapple/data/torch.py).

Modelling conventions:
* numpy float arrays are modelled as Lean lists over ℚ (exact arithmetic),
  except where the code applies transcendental functions (sqrt, cos, sin),
  which are modelled over ℝ;
* a 2-D array is a list of rows, a 3-D array a list of lists of rows
  (event index, particle index, feature index);
* boolean numpy arrays are lists of Bool; integer arrays lists of Int;
* the order in which files and event indices are visited is produced by
  np.random.shuffle, so theorems quantify over permutations of the file
  list where the order matters.
-/

/-- Numpy integer fancy-index assignment `y[idxs] = v`: every position named
by an index in `idxs` (a negative index counts from the end, as in numpy) is
set to `v`; all other positions keep their value.  Used to model line 93 of
torch.py, `y[~mask] = -1`, where `~mask` is an **integer** array, hence an
index array rather than a boolean mask.

Numpy additionally bounds-checks the index array and raises IndexError when
any entry falls outside `[-len(y), len(y))`; `npSetIdx` returns numpy's
result only when `npIdxInBounds y.length idxs` holds, and theorems about a
full iteration pass carry that check as a hypothesis (an out-of-range entry
aborts the real pass instead of producing a value). -/
def npSetIdx (y : List Int) (idxs : List Int) (v : Int) : List Int :=
  y.mapIdx (fun p old =>
    if idxs.any (fun i => (if i < 0 then (y.length : Int) + i else i) = (p : Int))
    then v else old)

/-- Numpy's bounds check on an integer fancy-index array over an axis of
size `len`: every entry, after normalizing a negative index by adding
`len`, must land in `[0, len)`; otherwise numpy raises IndexError. -/
def npIdxInBounds (len : ℕ) (idxs : List Int) : Bool :=
  idxs.all (fun i =>
    decide (0 ≤ (if i < 0 then (len : Int) + i else i))
      && decide ((if i < 0 then (len : Int) + i else i) < (len : Int)))

/-- The configuration fields of `PUDataset.__init__` that the iteration logic
reads (torch.py lines 11-24). -/
structure PUConfig where
  num_max_files : ℕ
  mask_charged : Bool
  n_particles : ℕ
  dr_adj : Option ℚ
  min_met : Option ℚ

/-- One on-disk npz file as `PUDataset` reads it: the arrays `x` (events ×
particles × features), `y` (events × particles), `N` (events) and `met`
(events).  The remaining arrays of the file (`p`, `q`, `metphi`, `mjj`,
`jpt0`, `jm0`, `puppimet`, `pfmet`) are passed through to the yielded
dictionary unchanged and play no role in the claims, so they are not
modelled. -/
structure PUFile where
  x : List (List (List ℚ))
  y : List (List Int)
  N : List ℕ
  met : List ℚ

/-- The `adj_mask` entry of a yielded sample: when `dr_adj` is configured it
is a 2-D integer matrix (line 91), otherwise it is the 1-D integer `mask`
itself (line 90). -/
inductive AdjMask where
  | vec : List Int → AdjMask
  | mat : List (List Int) → AdjMask
deriving DecidableEq

/-- The fields of the dictionary yielded per event by `PUDataset.__iter__`
that the claims are about (torch.py lines 98-113); the remaining entries are
file arrays indexed at the event and are not modelled. -/
structure PUSample where
  x : List (List ℚ)
  y : List Int
  adj_mask : AdjMask
  orig_y : List Int
  mask : List Int
deriving DecidableEq

/-- Model of `PUDataset.cone_adj(eta, phi, cone)` (torch.py lines 43-53): for
`cone == 0.0` it returns `np.eye(N, N)` (modelled as the Boolean identity
matrix, since the 0.0/1.0 entries are only ever consumed logically);
otherwise the Boolean matrix of
`(eta_i - eta_j)^2 + (phi_i - phi_j)^2 <= cone^2`.  Numpy broadcasting
requires `eta` and `phi` to have equal length; both dimensions of the result
are indexed by the positions of `eta`. -/
def PUDataset.cone_adj (eta phi : List ℚ) (cone : ℚ) : List (List Bool) :=
  if cone = 0 then
    (List.range eta.length).map (fun i =>
      (List.range eta.length).map (fun j => decide (i = j)))
  else
    (List.range eta.length).map (fun i =>
      (List.range eta.length).map (fun j =>
        decide ((eta.getD i 0 - eta.getD j 0) ^ 2
          + (phi.getD i 0 - phi.getD j 0) ^ 2 ≤ cone ^ 2)))

/-- The body of the per-event loop of `PUDataset.__iter__` (torch.py lines
80-116), applied to the event's slices `xE = X[i]`, `yE = Y[i]` (before the
file-level truncation to `n_particles`, which is performed here instead) and
`Ni = N[i]`.

Faithful details:
* `mask = (mask_base < N[i]).astype(int)` is an integer 0/1 vector;
* line 93, `y[~mask] = -1`: numpy `~` on an integer array is bitwise
  negation, `~m = -(m+1)`, so `~mask` is an array of `-2`/`-1` values used as
  **indices**, and the assignment writes `-1` at (negative) positions `-2`
  and `-1`, not at the padded positions;
* `orig_y` is copied after the line-93 assignment;
* when `mask_charged` is set, `q_mask = (x[:, 5] != 0)` is a genuine boolean
  mask and `y[q_mask] = -1` sets charged positions to `-1`;
* when `dr_adj` is configured, `adj_mask` is
  `logical_and(adj, logical_and(mask[:, None], mask)).astype(int)` where a
  nonzero integer counts as true. -/
def PUDataset.event_sample (cfg : PUConfig) (xE : List (List ℚ))
    (yE : List Int) (Ni : ℕ) : PUSample :=
  let x := xE.take cfg.n_particles
  let n := x.length
  let mask : List Int := (List.range n).map (fun j => if j < Ni then 1 else 0)
  let adj_mask : AdjMask :=
    match cfg.dr_adj with
    | some c =>
      let adj := PUDataset.cone_adj (x.map (fun row => row.getD 1 0))
        (x.map (fun row => row.getD 2 0)) c
      AdjMask.mat ((List.range n).map (fun a =>
        (List.range n).map (fun b =>
          if ((adj.getD a []).getD b false)
              ∧ mask.getD a 0 ≠ 0 ∧ mask.getD b 0 ≠ 0
          then 1 else 0)))
    | none => AdjMask.vec mask
  let y0 : List Int := yE.take cfg.n_particles
  let y1 := npSetIdx y0 (mask.map (fun m => -(m + 1))) (-1)
  let orig_y := y1
  let y2 := if cfg.mask_charged then
      List.zipWith (fun v (row : List ℚ) => if row.getD 5 0 ≠ 0 then -1 else v) y1 x
    else y1
  { x := x, y := y2, adj_mask := adj_mask, orig_y := orig_y, mask := mask }

/-- The samples produced from one file by `PUDataset.__iter__` (torch.py
lines 58-116): one per event, i.e. per leading index of the file's `x`
array; `np.random.shuffle(idx)` only permutes the order of the events. -/
def PUDataset.file_samples (cfg : PUConfig) (f : PUFile) : List PUSample :=
  (List.range f.x.length).map (fun i =>
    PUDataset.event_sample cfg (f.x.getD i []) (f.y.getD i []) (f.N.getD i 0))

/-- One full pass of `PUDataset.__iter__` (torch.py lines 55-116) over a file
list (taken in the order left by `np.random.shuffle(self._files)`): the first
`num_max_files` files each contribute one sample per event. -/
def PUDataset.iterSamples (cfg : PUConfig) (files : List PUFile) : List PUSample :=
  ((files.take cfg.num_max_files).map (PUDataset.file_samples cfg)).flatten

/-- Model of `PUDataset._get_len` (torch.py lines 29-41) over a file list (taken in
the order left by `np.random.shuffle(self._files)`): each of the first
`num_max_files` files contributes `N[evt_mask].shape[0]`, the number of
events passing `met > min_met` when `min_met` is configured (requires
`met` and `N` to have equal length), else `N.shape[0]`. -/
def PUDataset.get_len (cfg : PUConfig) (files : List PUFile) : ℕ :=
  ((files.take cfg.num_max_files).map (fun f =>
    match cfg.min_met with
    | some m => (f.met.filter (fun v => m < v)).length
    | none => f.N.length)).sum

/-- The event does not raise IndexError at line 93 of torch.py: the integer
index array `~mask` passes numpy's bounds check against the size of `y`.
With `n` particle slots, `~mask` holds `-2` at real-particle positions and
`-1` at padded ones, so the check fails exactly when an event has a real
particle but fewer than 2 slots (index `-2` on an axis of size 1). -/
def PUDataset.event_ok (cfg : PUConfig) (xE : List (List ℚ))
    (yE : List Int) (Ni : ℕ) : Bool :=
  let x := xE.take cfg.n_particles
  let n := x.length
  let mask : List Int := (List.range n).map (fun j => if j < Ni then 1 else 0)
  let y0 : List Int := yE.take cfg.n_particles
  npIdxInBounds y0.length (mask.map (fun m => -(m + 1)))

/-- Every event of the file survives the line-93 bounds check, so a real
pass over the file yields all of its events instead of aborting with
IndexError at the first bad one. -/
def PUDataset.file_ok (cfg : PUConfig) (f : PUFile) : Bool :=
  (List.range f.x.length).all (fun i =>
    PUDataset.event_ok cfg (f.x.getD i []) (f.y.getD i []) (f.N.getD i 0))

/-- Every event of every used file survives the line-93 bounds check: one
full pass of `PUDataset.__iter__` runs to completion without IndexError. -/
def PUDataset.pass_ok (cfg : PUConfig) (files : List PUFile) : Bool :=
  (files.take cfg.num_max_files).all (PUDataset.file_ok cfg)

/-- Entry `(a, b)` of an `adj_mask` in its 2-D (`dr_adj` configured) form;
on the 1-D form (which the claims about adjacency matrices never hit) it is
0 by convention. -/
def AdjMask.matEntry : AdjMask → ℕ → ℕ → Int
  | .vec _, _, _ => 0
  | .mat M, a, b => (M.getD a []).getD b 0

/-- Model of `METDataset.cone_adj(eta, phi, cone)` (torch.py lines 149-157): the
`dr2 <= cone2` comparison is commented out and the returned Boolean matrix is
`dr2 == 0`; the `cone` parameter is computed into `cone2` but unused. -/
def METDataset.cone_adj (eta phi : List ℚ) (cone : ℚ) : List (List Bool) :=
  let _cone2 := cone ^ 2
  (List.range eta.length).map (fun i =>
    (List.range eta.length).map (fun j =>
      decide ((eta.getD i 0 - eta.getD j 0) ^ 2
        + (phi.getD i 0 - phi.getD j 0) ^ 2 = 0)))

/-- Model of `METDataset.standardize_met` (torch.py lines 159-160), with the instance
attributes `mean_met` and `std_met` passed explicitly. -/
def METDataset.standardize_met (mean_met std_met met : ℚ) : ℚ :=
  (met - mean_met) / std_met

/-- Model of `METDataset.unstandardize_met` (torch.py lines 162-163), with the
instance attributes `mean_met` and `std_met` passed explicitly. -/
def METDataset.unstandardize_met (mean_met std_met met : ℚ) : ℚ :=
  std_met * met + mean_met

/-- Model of `METDataset._compute_met(px, py)` (torch.py lines 176-182) on 1-D inputs:
`sqrt(sum(px)^2 + sum(py)^2)`.  Modelled over ℝ because of `np.sqrt`. -/
noncomputable def METDataset.compute_met (px py : List ℝ) : ℝ :=
  let metx := px.sum
  let mety := py.sum
  Real.sqrt (metx ^ 2 + mety ^ 2)

/-- The per-particle action of `METDataset._transform_x` (torch.py lines
184-193): a feature row starting `[pt, eta, phi, ...]` becomes
`[pt*cos(phi), eta, pt*sin(phi), ...]`; `px` and `py` are both computed
before either is written back, so there is no aliasing.  A row with fewer
than 3 features would be an IndexError in numpy; the model returns it
unchanged and theorems assume at least 3 features. -/
noncomputable def METDataset.transform_row (row : List ℝ) : List ℝ :=
  match row with
  | pt :: eta :: phi :: rest =>
    (pt * Real.cos phi) :: eta :: (pt * Real.sin phi) :: rest
  | short => short

/-- Model of `METDataset._transform_x(x)` (torch.py lines 184-193) applied to the 3-D
array `x` (events × particles × features). -/
noncomputable def METDataset.transform_x (x : List (List (List ℝ))) : List (List (List ℝ)) :=
  x.map (fun ev => ev.map METDataset.transform_row)

/-- Model of `METDataset._get_len` (torch.py lines 141-147): each file (the list is
already truncated to `num_max_files` in `__init__`) contributes `N.shape[0]`,
with no met filtering. -/
def METDataset.get_len (files : List PUFile) : ℕ :=
  (files.map (fun f => f.N.length)).sum

/-- The adjacency-mask part of the per-event loop of `METDataset.__iter__`
(torch.py lines 225-234), applied to the event's (already transformed and
truncated) feature matrix `x = X[i]` and event count `Ni = N[i]`.  Here
`mask = (mask_base < N[i])` stays boolean; when `dr_adj` is configured the
call to `cone_adj` is commented out and `adj = np.eye(x.shape[0])` (0.0/1.0
entries consumed logically), so
`adj_mask = logical_and(adj, logical_and(mask[:, None], mask)).astype(int)`;
otherwise `adj_mask = mask.astype(int)`. -/
def METDataset.event_adj_mask (dr_adj : Option ℚ) (x : List (List ℚ))
    (Ni : ℕ) : AdjMask :=
  let n := x.length
  let mask : List Bool := (List.range n).map (fun j => decide (j < Ni))
  match dr_adj with
  | some _ =>
    AdjMask.mat ((List.range n).map (fun a =>
      (List.range n).map (fun b =>
        if a = b ∧ mask.getD a false ∧ mask.getD b false then 1 else 0)))
  | none => AdjMask.vec (mask.map (fun b => if b then 1 else 0))

/-- The list comprehension `[s[k] for s in samples]` inside
`PUDataset.collate_fn` (torch.py line 121), with a Python dictionary
modelled as an association list: a missing key is a KeyError, modelled as
`none`. -/
def stackKey {α : Type} (k : String) : List (List (String × α)) → Option (List α)
  | [] => some []
  | s :: rest =>
    match s.lookup k, stackKey k rest with
    | some v, some vs => some (v :: vs)
    | _, _ => none

/-- The dictionary comprehension `{k: np.stack(...) for k in keys}` of
`PUDataset.collate_fn` (torch.py line 121): one stacked entry per key, in key
order; `np.stack(arrs, axis=0)` on a list of equal-shaped arrays is the list
itself, whose position `j` is the `j`-th input array. -/
def collateKeys {α : Type} (keys : List String) (samples : List (List (String × α))) :
    Option (List (String × List α)) :=
  match keys with
  | [] => some []
  | k :: ks =>
    match stackKey k samples, collateKeys ks samples with
    | some vs, some rest => some ((k, vs) :: rest)
    | _, _ => none

/-- Model of `PUDataset.collate_fn(samples)` (torch.py lines 118-122): the keys are
taken from `samples[0]` (an IndexError on an empty batch, modelled as
`none`) and each key is mapped to the stack of that key's array across the
batch. -/
def PUDataset.collate_fn {α : Type} (samples : List (List (String × α))) :
    Option (List (String × List α)) :=
  match samples with
  | [] => none
  | s0 :: _ => collateKeys (s0.map Prod.fst) samples

/-- The list comprehension `[s[i] for s in samples]` inside
`METDataset.collate_fn` (torch.py line 247), with a Python tuple modelled as
a list: an out-of-range position is an IndexError, modelled as `none`. -/
def stackFt {α : Type} (i : ℕ) : List (List α) → Option (List α)
  | [] => some []
  | s :: rest =>
    match s.get? i, stackFt i rest with
    | some v, some vs => some (v :: vs)
    | _, _ => none

/-- The outer comprehension of `METDataset.collate_fn` over
`range(n_fts)`. -/
def collateFts {α : Type} (is : List ℕ) (samples : List (List α)) :
    Option (List (List α)) :=
  match is with
  | [] => some []
  | i :: rest =>
    match stackFt i samples, collateFts rest samples with
    | some vs, some vss => some (vs :: vss)
    | _, _ => none

/-- Model of `METDataset.collate_fn(samples)` (torch.py lines 244-248): `n_fts` is the
length of `samples[0]` (IndexError on an empty batch, modelled as `none`)
and position `i` of the result is the stack of the `i`-th tuple element
across the batch. -/
def METDataset.collate_fn {α : Type} (samples : List (List α)) :
    Option (List (List α)) :=
  match samples with
  | [] => none
  | s0 :: _ => collateFts (List.range s0.length) samples

section Lemmas

/-- Reading position `i < n` of `(range n).map f` with any default gives `f i`. -/
theorem rangeMap_getD {α : Type} (n : ℕ) (f : ℕ → α) (d : α) {i : ℕ} (h : i < n) :
    ((List.range n).map f).getD i d = f i := by
  have hlen : i < ((List.range n).map f).length := by simpa using h
  rw [List.getD_eq_getElem _ _ hlen]
  simp

/-- Reading position `i ≥ n` of `(range n).map f` gives the default. -/
theorem rangeMap_getD_default {α : Type} (n : ℕ) (f : ℕ → α) (d : α) {i : ℕ}
    (h : n ≤ i) : ((List.range n).map f).getD i d = d := by
  apply List.getD_eq_default
  simpa using h

/-- Entry `(i, j)` of an `n × n` matrix built by nested `range`-maps, in
range. -/
theorem rangeMat_getD {α : Type} (n : ℕ) (g : ℕ → ℕ → α) (d : α) {i j : ℕ}
    (hi : i < n) (hj : j < n) :
    (((List.range n).map (fun a => (List.range n).map (g a))).getD i []).getD j d
      = g i j := by
  rw [rangeMap_getD _ _ _ hi, rangeMap_getD _ _ _ hj]

/-- Entry `(i, j)` of an `n × n` matrix built by nested `range`-maps, out of
range in either coordinate. -/
theorem rangeMat_getD_oob {α : Type} (n : ℕ) (g : ℕ → ℕ → α) (d : α) {i j : ℕ}
    (h : n ≤ i ∨ n ≤ j) :
    (((List.range n).map (fun a => (List.range n).map (g a))).getD i []).getD j d
      = d := by
  by_cases hi : i < n
  · rcases h with h | h
    · omega
    · rw [rangeMap_getD _ _ _ hi]
      exact rangeMap_getD_default _ _ _ h
  · have houter : ((List.range n).map (fun a => (List.range n).map (g a))).getD i []
        = [] :=
      List.getD_eq_default _ _ (by simpa using Nat.le_of_not_lt hi)
    rw [houter]
    exact List.getD_nil

/-- In-range entry of `PUDataset.cone_adj` with a nonzero cone. -/
theorem cone_adj_entry_ne (eta phi : List ℚ) (cone : ℚ) (hc : cone ≠ 0)
    {i j : ℕ} (hi : i < eta.length) (hj : j < eta.length) :
    ((PUDataset.cone_adj eta phi cone).getD i []).getD j false =
      decide ((eta.getD i 0 - eta.getD j 0) ^ 2
        + (phi.getD i 0 - phi.getD j 0) ^ 2 ≤ cone ^ 2) := by
  unfold PUDataset.cone_adj
  rw [if_neg hc]
  exact rangeMat_getD _ _ _ hi hj

/-- In-range entry of `PUDataset.cone_adj` with cone zero. -/
theorem cone_adj_entry_zero (eta phi : List ℚ)
    {i j : ℕ} (hi : i < eta.length) (hj : j < eta.length) :
    ((PUDataset.cone_adj eta phi 0).getD i []).getD j false = decide (i = j) := by
  unfold PUDataset.cone_adj
  rw [if_pos rfl]
  exact rangeMat_getD _ _ _ hi hj

/-- Every in-range diagonal entry of `PUDataset.cone_adj` is true. -/
theorem cone_adj_refl (eta phi : List ℚ) (cone : ℚ) {i : ℕ}
    (hi : i < eta.length) :
    ((PUDataset.cone_adj eta phi cone).getD i []).getD i false = true := by
  by_cases hc : cone = 0
  · subst hc
    rw [cone_adj_entry_zero eta phi hi hi]
    simp
  · rw [cone_adj_entry_ne eta phi cone hc hi hi]
    simp [sub_self]
    positivity

/-- Entries of `PUDataset.cone_adj` are out-of-range defaults past the matrix
size. -/
theorem cone_adj_entry_oob (eta phi : List ℚ) (cone : ℚ) {i j : ℕ}
    (h : eta.length ≤ i ∨ eta.length ≤ j) :
    ((PUDataset.cone_adj eta phi cone).getD i []).getD j false = false := by
  unfold PUDataset.cone_adj
  by_cases hc : cone = 0
  · rw [if_pos hc]; exact rangeMat_getD_oob _ _ _ h
  · rw [if_neg hc]; exact rangeMat_getD_oob _ _ _ h

end Lemmas

/-- Claim C3: with `std_met` nonzero, `unstandardize_met` after
`standardize_met` is the identity and so is the composition in the other
order. -/
theorem claim_C3 (mean_met std_met met : ℚ) (h : std_met ≠ 0) :
    METDataset.unstandardize_met mean_met std_met
        (METDataset.standardize_met mean_met std_met met) = met ∧
    METDataset.standardize_met mean_met std_met
        (METDataset.unstandardize_met mean_met std_met met) = met := by
  unfold METDataset.standardize_met METDataset.unstandardize_met
  constructor
  · field_simp
  · field_simp

/-- Witness for C3 at mean 3, std 2, met 5. -/
theorem claim_C3_witness :
    METDataset.unstandardize_met 3 2 (METDataset.standardize_met 3 2 5) = 5 ∧
    METDataset.standardize_met 3 2 (METDataset.unstandardize_met 3 2 5) = 5 :=
  claim_C3 3 2 5 (by norm_num)

/-- Claim C4: on equal-length inputs, `PUDataset.cone_adj` with cone 0 is the
identity matrix (entry `(i, j)` true exactly when `i = j`), and with cone
positive its entry `(i, j)` is true exactly when
`(eta_i - eta_j)^2 + (phi_i - phi_j)^2 ≤ cone^2`. -/
theorem claim_C4 (eta phi : List ℚ) (cone : ℚ) (_hlen : eta.length = phi.length) :
    (cone = 0 → ∀ i j : ℕ, i < eta.length → j < eta.length →
      (((PUDataset.cone_adj eta phi cone).getD i []).getD j false = true ↔ i = j)) ∧
    (0 < cone → ∀ i j : ℕ, i < eta.length → j < eta.length →
      (((PUDataset.cone_adj eta phi cone).getD i []).getD j false = true ↔
        (eta.getD i 0 - eta.getD j 0) ^ 2
          + (phi.getD i 0 - phi.getD j 0) ^ 2 ≤ cone ^ 2)) := by
  constructor
  · intro hc i j hi hj
    subst hc
    rw [cone_adj_entry_zero eta phi hi hj]
    simp
  · intro hc i j hi hj
    rw [cone_adj_entry_ne eta phi cone (ne_of_gt hc) hi hj]
    simp

/-- Witness for C4 at eta = [0, 1], phi = [0, 0], cone = 1, entry (0, 1). -/
theorem claim_C4_witness :
    ((PUDataset.cone_adj [0, 1] [0, 0] 1).getD 0 []).getD 1 false = true ↔
      ((0 : ℚ) - 1) ^ 2 + ((0 : ℚ) - 0) ^ 2 ≤ 1 ^ 2 :=
  (claim_C4 [0, 1] [0, 0] 1 rfl).2 (by norm_num) 0 1 (by decide) (by decide)

/-- Claim C8: on equal-length inputs, `PUDataset.cone_adj` is symmetric in
its two indices and true on every in-range diagonal entry, for every cone
value. -/
theorem claim_C8 (eta phi : List ℚ) (cone : ℚ) (_hlen : eta.length = phi.length) :
    (∀ i j : ℕ,
      ((PUDataset.cone_adj eta phi cone).getD i []).getD j false =
      ((PUDataset.cone_adj eta phi cone).getD j []).getD i false) ∧
    (∀ i : ℕ, i < eta.length →
      ((PUDataset.cone_adj eta phi cone).getD i []).getD i false = true) := by
  refine ⟨fun i j => ?_, fun i hi => cone_adj_refl eta phi cone hi⟩
  by_cases hi : i < eta.length
  · by_cases hj : j < eta.length
    · by_cases hc : cone = 0
      · subst hc
        rw [cone_adj_entry_zero eta phi hi hj, cone_adj_entry_zero eta phi hj hi]
        simp [eq_comm]
      · rw [cone_adj_entry_ne eta phi cone hc hi hj,
          cone_adj_entry_ne eta phi cone hc hj hi]
        have h2 : (eta.getD i 0 - eta.getD j 0) ^ 2
              + (phi.getD i 0 - phi.getD j 0) ^ 2
            = (eta.getD j 0 - eta.getD i 0) ^ 2
              + (phi.getD j 0 - phi.getD i 0) ^ 2 := by ring
        rw [h2]
    · rw [cone_adj_entry_oob eta phi cone (Or.inr (Nat.le_of_not_lt hj)),
        cone_adj_entry_oob eta phi cone (Or.inl (Nat.le_of_not_lt hj))]
  · rw [cone_adj_entry_oob eta phi cone (Or.inl (Nat.le_of_not_lt hi)),
      cone_adj_entry_oob eta phi cone (Or.inr (Nat.le_of_not_lt hi))]

/-- Witness for C8 at eta = [0, 1], phi = [0, 2], cone = 2: symmetry of the
(0, 1) entry and truth of the diagonal entry (1, 1). -/
theorem claim_C8_witness :
    ((PUDataset.cone_adj [0, 1] [0, 2] 2).getD 0 []).getD 1 false =
      ((PUDataset.cone_adj [0, 1] [0, 2] 2).getD 1 []).getD 0 false ∧
    ((PUDataset.cone_adj [0, 1] [0, 2] 2).getD 1 []).getD 1 false = true :=
  ⟨(claim_C8 [0, 1] [0, 2] 2 rfl).1 0 1,
   (claim_C8 [0, 1] [0, 2] 2 rfl).2 1 (by decide)⟩

/-- Claim C10: `METDataset._compute_met` returns
`sqrt(sum(px)^2 + sum(py)^2)`, which is nonnegative for every input. -/
theorem claim_C10 (px py : List ℝ) :
    METDataset.compute_met px py = Real.sqrt (px.sum ^ 2 + py.sum ^ 2) ∧
    0 ≤ METDataset.compute_met px py :=
  ⟨rfl, Real.sqrt_nonneg _⟩

/-- Claim C2 (code-bug evidence): the per-event label masking of
`PUDataset.__iter__` evaluated at a concrete event with 4 particles,
`N[i] = 1`, all features zero and all loaded labels 5, with `mask_charged`
off.  The claim requires `y = [5, -1, -1, -1]` (every index at or beyond
`N[i] = 1` masked to -1), but the code produces `y = [5, 5, -1, -1]`:
`mask` is an **integer** array, so `~mask` is the bitwise negation
`[-2, -1, -1, -1]`, which numpy uses as an index array, and
`y[~mask] = -1` writes the last two positions instead of the padded ones.
In particular the padded position 1 keeps label 5. -/
theorem claim_C2_code_bug :
    (PUDataset.event_sample ⟨1, false, 4, none, none⟩
        [[0, 0, 0, 0, 0, 0], [0, 0, 0, 0, 0, 0], [0, 0, 0, 0, 0, 0], [0, 0, 0, 0, 0, 0]]
        [5, 5, 5, 5] 1).y = [5, 5, -1, -1] ∧
    ¬ (PUDataset.event_sample ⟨1, false, 4, none, none⟩
        [[0, 0, 0, 0, 0, 0], [0, 0, 0, 0, 0, 0], [0, 0, 0, 0, 0, 0], [0, 0, 0, 0, 0, 0]]
        [5, 5, 5, 5] 1).y.getD 1 0 = -1 := by
  decide

/-- Claim C7: `METDataset._transform_x` rewrites each particle feature row
`[pt, eta, phi, ...rest]` to `[pt*cos(phi), eta, pt*sin(phi), ...rest]`:
feature 0 becomes `pt*cos(phi)`, feature 2 becomes `pt*sin(phi)`, and
feature 1 together with every feature from index 3 on is unchanged. -/
theorem claim_C7 (x : List (List (List ℝ))) (e p : ℕ) (ev : List (List ℝ))
    (pt eta phi : ℝ) (rest : List ℝ)
    (he : x[e]? = some ev) (hp : ev[p]? = some (pt :: eta :: phi :: rest)) :
    ((METDataset.transform_x x)[e]?.bind (fun ev2 => ev2[p]?))
      = some ((pt * Real.cos phi) :: eta :: (pt * Real.sin phi) :: rest) := by
  unfold METDataset.transform_x
  rw [List.getElem?_map, he]
  simp only [Option.map_some', Option.some_bind]
  rw [List.getElem?_map, hp]
  rfl

/-- Witness for C7 at the single-event, single-particle array
`[[[2, 5, 0, 7]]]`. -/
theorem claim_C7_witness :
    ((METDataset.transform_x [[[2, 5, 0, 7]]])[0]?.bind (fun ev2 => ev2[0]?))
      = some ((2 * Real.cos 0) :: (5 : ℝ) :: (2 * Real.sin 0) :: [7]) :=
  claim_C7 [[[2, 5, 0, 7]]] 0 0 [[2, 5, 0, 7]] 2 5 0 [7] rfl rfl

/-- The assignment `npSetIdx` preserves the length of its input. -/
theorem npSetIdx_length (y : List Int) (idxs : List Int) (v : Int) :
    (npSetIdx y idxs v).length = y.length := by
  unfold npSetIdx
  exact List.length_mapIdx

/-- Reading `getD` through `zipWith` at an in-range position. -/
theorem zipWith_getD {α β γ : Type} (f : α → β → γ) (l1 : List α) (l2 : List β)
    (d1 : α) (d2 : β) (dg : γ) {j : ℕ} (hj1 : j < l1.length) (hj2 : j < l2.length) :
    (List.zipWith f l1 l2).getD j dg = f (l1.getD j d1) (l2.getD j d2) := by
  have hz : j < (List.zipWith f l1 l2).length := by
    rw [List.length_zipWith]; omega
  rw [List.getD_eq_getElem _ _ hz, List.getD_eq_getElem _ _ hj1,
    List.getD_eq_getElem _ _ hj2]
  exact List.getElem_zipWith

/-- Claim C9: in every sample of `PUDataset.__iter__`, at each particle
position whose charge feature `x[:, 5]` is zero the arrays `y` and `orig_y`
agree, and wherever they differ the position is charged and `mask_charged`
is enabled. -/
theorem claim_C9 (cfg : PUConfig) (xE : List (List ℚ)) (yE : List Int) (Ni : ℕ)
    (hlen : xE.length = yE.length) (j : ℕ)
    (hj : j < (PUDataset.event_sample cfg xE yE Ni).x.length) :
    (((PUDataset.event_sample cfg xE yE Ni).x.getD j []).getD 5 0 = 0 →
      (PUDataset.event_sample cfg xE yE Ni).y.getD j 0
        = (PUDataset.event_sample cfg xE yE Ni).orig_y.getD j 0) ∧
    ((PUDataset.event_sample cfg xE yE Ni).y.getD j 0
        ≠ (PUDataset.event_sample cfg xE yE Ni).orig_y.getD j 0 →
      cfg.mask_charged = true ∧
        ((PUDataset.event_sample cfg xE yE Ni).x.getD j []).getD 5 0 ≠ 0) := by
  simp only [PUDataset.event_sample] at hj ⊢
  cases hm : cfg.mask_charged with
  | false =>
    simp [hm]
  | true =>
    simp only [hm, if_true] at hj ⊢
    have hx : j < (xE.take cfg.n_particles).length := by simpa using hj
    have hx' : j < min cfg.n_particles xE.length := by
      simpa [List.length_take] using hx
    have hy : j < (npSetIdx ((yE.take cfg.n_particles))
        (((List.range (xE.take cfg.n_particles).length).map
          (fun k => if k < Ni then (1 : Int) else 0)).map (fun m => -(m + 1)))
        (-1)).length := by
      rw [npSetIdx_length]
      simp only [List.length_take]
      omega
    rw [zipWith_getD _ _ _ 0 [] 0 hy hx]
    constructor
    · intro hq
      rw [hq]
      simp
    · intro hne
      refine ⟨by trivial, fun hq => hne ?_⟩
      rw [hq]
      simp

/-- Witness for C9: a 2-particle event with a charged first particle,
`mask_charged` on, checked at position 0. -/
theorem claim_C9_witness :
    (((PUDataset.event_sample ⟨1, true, 2, none, none⟩
        [[0, 0, 0, 0, 0, 9], [0, 0, 0, 0, 0, 0]] [5, 5] 2).x.getD 0 []).getD 5 0 = 0 →
      (PUDataset.event_sample ⟨1, true, 2, none, none⟩
        [[0, 0, 0, 0, 0, 9], [0, 0, 0, 0, 0, 0]] [5, 5] 2).y.getD 0 0
        = (PUDataset.event_sample ⟨1, true, 2, none, none⟩
        [[0, 0, 0, 0, 0, 9], [0, 0, 0, 0, 0, 0]] [5, 5] 2).orig_y.getD 0 0) ∧
    ((PUDataset.event_sample ⟨1, true, 2, none, none⟩
        [[0, 0, 0, 0, 0, 9], [0, 0, 0, 0, 0, 0]] [5, 5] 2).y.getD 0 0
        ≠ (PUDataset.event_sample ⟨1, true, 2, none, none⟩
        [[0, 0, 0, 0, 0, 9], [0, 0, 0, 0, 0, 0]] [5, 5] 2).orig_y.getD 0 0 →
      (⟨1, true, 2, none, none⟩ : PUConfig).mask_charged = true ∧
        ((PUDataset.event_sample ⟨1, true, 2, none, none⟩
        [[0, 0, 0, 0, 0, 9], [0, 0, 0, 0, 0, 0]] [5, 5] 2).x.getD 0 []).getD 5 0 ≠ 0) :=
  claim_C9 ⟨1, true, 2, none, none⟩
    [[0, 0, 0, 0, 0, 9], [0, 0, 0, 0, 0, 0]] [5, 5] 2 rfl 0 (by decide)

/-- Claim C5: when `dr_adj` is configured, the adjacency matrix yielded by
either dataset connects only real-particle pairs (an entry 1 forces both
indices below the event's particle count `N`), and every in-range diagonal
entry at an index below `N` is 1. -/
theorem claim_C5 (cfg : PUConfig) (xE : List (List ℚ)) (yE : List Int) (Ni : ℕ)
    (c : ℚ) (hdr : cfg.dr_adj = some c)
    (dr2 : Option ℚ) (c2 : ℚ) (hdr2 : dr2 = some c2)
    (x2 : List (List ℚ)) (Ni2 : ℕ) :
    ((∀ a b : ℕ,
        ((PUDataset.event_sample cfg xE yE Ni).adj_mask).matEntry a b = 1 →
          a < Ni ∧ b < Ni) ∧
      ∀ a : ℕ, a < Ni → a < (xE.take cfg.n_particles).length →
        ((PUDataset.event_sample cfg xE yE Ni).adj_mask).matEntry a a = 1) ∧
    ((∀ a b : ℕ,
        (METDataset.event_adj_mask dr2 x2 Ni2).matEntry a b = 1 →
          a < Ni2 ∧ b < Ni2) ∧
      ∀ a : ℕ, a < Ni2 → a < x2.length →
        (METDataset.event_adj_mask dr2 x2 Ni2).matEntry a a = 1) := by
  simp only [PUDataset.event_sample, METDataset.event_adj_mask, hdr, hdr2,
    AdjMask.matEntry]
  constructor
  · constructor
    · intro a b h1
      by_cases ha : a < (xE.take cfg.n_particles).length
      · by_cases hb : b < (xE.take cfg.n_particles).length
        · rw [rangeMat_getD _ _ _ ha hb] at h1
          split at h1
          · rename_i hcond
            obtain ⟨-, hma, hmb⟩ := hcond
            rw [rangeMap_getD _ _ _ ha] at hma
            rw [rangeMap_getD _ _ _ hb] at hmb
            constructor
            · by_cases haN : a < Ni
              · exact haN
              · simp [haN] at hma
            · by_cases hbN : b < Ni
              · exact hbN
              · simp [hbN] at hmb
          · exact absurd h1 (by decide)
        · rw [rangeMat_getD_oob _ _ _ (Or.inr (Nat.le_of_not_lt hb))] at h1
          exact absurd h1 (by decide)
      · rw [rangeMat_getD_oob _ _ _ (Or.inl (Nat.le_of_not_lt ha))] at h1
        exact absurd h1 (by decide)
    · intro a haN han
      rw [rangeMat_getD _ _ _ han han]
      have hadj : ((PUDataset.cone_adj
          ((xE.take cfg.n_particles).map (fun row => row.getD 1 0))
          ((xE.take cfg.n_particles).map (fun row => row.getD 2 0)) c).getD a []).getD
            a false = true :=
        cone_adj_refl _ _ c (by simpa using han)
      have hmask : (((List.range (xE.take cfg.n_particles).length).map
          (fun j => if j < Ni then (1 : Int) else 0)).getD a 0) = 1 := by
        rw [rangeMap_getD _ _ _ han, if_pos haN]
      rw [if_pos ⟨hadj, by rw [hmask]; decide, by rw [hmask]; decide⟩]
  · constructor
    · intro a b h1
      by_cases ha : a < x2.length
      · by_cases hb : b < x2.length
        · rw [rangeMat_getD _ _ _ ha hb] at h1
          split at h1
          · rename_i hcond
            obtain ⟨-, hma, hmb⟩ := hcond
            rw [rangeMap_getD _ _ _ ha] at hma
            rw [rangeMap_getD _ _ _ hb] at hmb
            exact ⟨of_decide_eq_true hma, of_decide_eq_true hmb⟩
          · exact absurd h1 (by decide)
        · rw [rangeMat_getD_oob _ _ _ (Or.inr (Nat.le_of_not_lt hb))] at h1
          exact absurd h1 (by decide)
      · rw [rangeMat_getD_oob _ _ _ (Or.inl (Nat.le_of_not_lt ha))] at h1
        exact absurd h1 (by decide)
    · intro a haN han
      rw [rangeMat_getD _ _ _ han han]
      have hmask : (((List.range x2.length).map
          (fun j => decide (j < Ni2))).getD a false) = true := by
        rw [rangeMap_getD _ _ _ han]
        exact decide_eq_true haN
      rw [if_pos ⟨rfl, hmask, hmask⟩]

/-- Witness for C5: a 2-particle event with `N = 1` and `dr_adj = 1` in each
dataset; the diagonal entries (0, 0) of both adjacency matrices are 1. -/
theorem claim_C5_witness :
    ((PUDataset.event_sample ⟨1, false, 2, some 1, none⟩
        [[0, 0, 0], [0, 0, 0]] [0, 0] 1).adj_mask).matEntry 0 0 = 1 ∧
    (METDataset.event_adj_mask (some 1) [[0, 0], [0, 0]] 1).matEntry 0 0 = 1 :=
  ⟨((claim_C5 ⟨1, false, 2, some 1, none⟩ [[0, 0, 0], [0, 0, 0]] [0, 0] 1 1 rfl
      (some 1) 1 rfl [[0, 0], [0, 0]] 1).1).2 0 (by decide) (by decide),
   ((claim_C5 ⟨1, false, 2, some 1, none⟩ [[0, 0, 0], [0, 0, 0]] [0, 0] 1 1 rfl
      (some 1) 1 rfl [[0, 0], [0, 0]] 1).2).2 0 (by decide) (by decide)⟩

/-- The stack `stackKey` succeeds when every sample has the key, and position `j` of
the stack is the key's value in sample `j`. -/
theorem stackKey_spec {α : Type} (k : String) (samples : List (List (String × α)))
    (h : ∀ s ∈ samples, (s.lookup k).isSome) :
    ∃ vs, stackKey k samples = some vs ∧
      ∀ j : ℕ, vs[j]? = samples[j]?.bind (fun s => s.lookup k) := by
  induction samples with
  | nil =>
    exact ⟨[], rfl, fun j => by simp⟩
  | cons s rest ih =>
    obtain ⟨v, hv⟩ := Option.isSome_iff_exists.mp (h s (List.mem_cons_self s rest))
    obtain ⟨vs, hvs, hspec⟩ := ih (fun t ht => h t (List.mem_cons_of_mem s ht))
    refine ⟨v :: vs, ?_, fun j => ?_⟩
    · simp [stackKey, hv, hvs]
    · cases j with
      | zero => simp [hv]
      | succ j => simpa using hspec j

/-- The collation `collateKeys` succeeds when every sample has every key, and entry `m` of
the result pairs key `m` with its stacked values. -/
theorem collateKeys_spec {α : Type} (keys : List String)
    (samples : List (List (String × α)))
    (h : ∀ k ∈ keys, ∀ s ∈ samples, (s.lookup k).isSome) :
    ∃ ret, collateKeys keys samples = some ret ∧
      ∀ (m : ℕ) (k : String), keys[m]? = some k →
        ∃ stack, ret[m]? = some (k, stack) ∧
          ∀ j : ℕ, stack[j]? = samples[j]?.bind (fun s => s.lookup k) := by
  induction keys with
  | nil =>
    refine ⟨[], rfl, fun m k hm => ?_⟩
    simp at hm
  | cons k0 ks ih =>
    obtain ⟨vs, hvs, hstack⟩ := stackKey_spec k0 samples (h k0 (by simp))
    obtain ⟨ret, hret, hretspec⟩ := ih (fun k hk s hs => h k (by simp [hk]) s hs)
    refine ⟨(k0, vs) :: ret, by simp [collateKeys, hvs, hret], ?_⟩
    intro m k hm
    cases m with
    | zero =>
      simp at hm
      subst hm
      exact ⟨vs, by simp, hstack⟩
    | succ m =>
      simp at hm
      obtain ⟨stack, hs1, hs2⟩ := hretspec m k hm
      exact ⟨stack, by simpa using hs1, hs2⟩

/-- The stack `stackFt` succeeds when position `i` exists in every sample, and position
`j` of the stack is element `i` of sample `j`. -/
theorem stackFt_spec {α : Type} (i : ℕ) (samples : List (List α))
    (h : ∀ s ∈ samples, i < s.length) :
    ∃ vs, stackFt i samples = some vs ∧
      ∀ j : ℕ, vs[j]? = samples[j]?.bind (fun s => s[i]?) := by
  induction samples with
  | nil =>
    exact ⟨[], rfl, fun j => by simp⟩
  | cons s rest ih =>
    have hsi : i < s.length := h s (List.mem_cons_self s rest)
    have hv : s[i]? = some s[i] := List.getElem?_eq_getElem hsi
    obtain ⟨vs, hvs, hspec⟩ := ih (fun t ht => h t (List.mem_cons_of_mem s ht))
    refine ⟨s[i] :: vs, ?_, fun j => ?_⟩
    · simp [stackFt, hv, hvs]
    · cases j with
      | zero => simp [hv]
      | succ j => simpa using hspec j

/-- The collation `collateFts` succeeds when every requested position exists in every
sample. -/
theorem collateFts_spec {α : Type} (is : List ℕ) (samples : List (List α))
    (h : ∀ i ∈ is, ∀ s ∈ samples, i < s.length) :
    ∃ ret, collateFts is samples = some ret ∧
      ∀ (m i : ℕ), is[m]? = some i →
        ∃ stack, ret[m]? = some stack ∧
          ∀ j : ℕ, stack[j]? = samples[j]?.bind (fun s => s[i]?) := by
  induction is with
  | nil =>
    refine ⟨[], rfl, fun m i hm => ?_⟩
    simp at hm
  | cons i0 irest ih =>
    obtain ⟨vs, hvs, hstack⟩ := stackFt_spec i0 samples (h i0 (by simp))
    obtain ⟨ret, hret, hretspec⟩ := ih (fun i hi s hs => h i (by simp [hi]) s hs)
    refine ⟨vs :: ret, by simp [collateFts, hvs, hret], ?_⟩
    intro m i hm
    cases m with
    | zero =>
      simp at hm
      subst hm
      exact ⟨vs, by simp, hstack⟩
    | succ m =>
      simp at hm
      obtain ⟨stack, hs1, hs2⟩ := hretspec m i hm
      exact ⟨stack, by simpa using hs1, hs2⟩

/-- Claim C6: on a non-empty batch in which every sample has every key of
the first sample (resp. at least as many tuple positions), `collate_fn`
returns, for each key `k` (resp. position `i`), the stacked array whose
slice at batch position `j` is `samples[j][k]` (resp. the `i`-th tuple
element of sample `j`). -/
theorem claim_C6 {α β : Type}
    (s0 : List (String × α)) (rest : List (List (String × α)))
    (hkeys : ∀ s ∈ s0 :: rest, ∀ k ∈ s0.map Prod.fst, (s.lookup k).isSome)
    (t0 : List β) (trest : List (List β))
    (hlen : ∀ s ∈ t0 :: trest, t0.length ≤ s.length) :
    (∃ ret, PUDataset.collate_fn (s0 :: rest) = some ret ∧
      ∀ (m : ℕ) (k : String), (s0.map Prod.fst)[m]? = some k →
        ∃ stack, ret[m]? = some (k, stack) ∧
          ∀ j : ℕ, stack[j]? = (s0 :: rest)[j]?.bind (fun s => s.lookup k)) ∧
    (∃ ret2, METDataset.collate_fn (t0 :: trest) = some ret2 ∧
      ∀ i : ℕ, i < t0.length →
        ∃ stack, ret2[i]? = some stack ∧
          ∀ j : ℕ, stack[j]? = (t0 :: trest)[j]?.bind (fun s => s[i]?)) := by
  constructor
  · obtain ⟨ret, hret, hspec⟩ := collateKeys_spec (s0.map Prod.fst) (s0 :: rest)
      (fun k hk s hs => hkeys s hs k hk)
    exact ⟨ret, hret, hspec⟩
  · obtain ⟨ret2, hret2, hspec⟩ := collateFts_spec (List.range t0.length) (t0 :: trest)
      (fun i hi s hs => lt_of_lt_of_le (List.mem_range.mp hi) (hlen s hs))
    refine ⟨ret2, hret2, fun i hi => ?_⟩
    exact hspec i i (by rw [List.getElem?_range hi])

/-- Witness for C6 on the two-sample batches `[{a: 1}, {a: 2}]` and
`[(10), (20)]`. -/
theorem claim_C6_witness :
    (∃ ret, PUDataset.collate_fn [[("a", (1 : Int))], [("a", 2)]] = some ret ∧
      ∀ (m : ℕ) (k : String),
          ([("a", (1 : Int))].map Prod.fst)[m]? = some k →
        ∃ stack, ret[m]? = some (k, stack) ∧
          ∀ j : ℕ, stack[j]? =
            [[("a", (1 : Int))], [("a", 2)]][j]?.bind (fun s => s.lookup k)) ∧
    (∃ ret2, METDataset.collate_fn [[(10 : Int)], [20]] = some ret2 ∧
      ∀ i : ℕ, i < [(10 : Int)].length →
        ∃ stack, ret2[i]? = some stack ∧
          ∀ j : ℕ, stack[j]? = [[(10 : Int)], [20]][j]?.bind (fun s => s[i]?)) :=
  claim_C6 [("a", (1 : Int))] [[("a", 2)]] (by decide) [(10 : Int)] [[20]]
    (by decide)

/-- When `min_met` is not configured, `PUDataset._get_len` counts `N.shape[0]`
per used file. -/
theorem get_len_none (cfg : PUConfig) (files : List PUFile)
    (hmm : cfg.min_met = none) :
    PUDataset.get_len cfg files
      = ((files.take cfg.num_max_files).map (fun f => f.N.length)).sum := by
  unfold PUDataset.get_len
  rw [hmm]

/-- One file contributes exactly one sample per leading index of its `x`
array. -/
theorem file_samples_length (cfg : PUConfig) (f : PUFile) :
    (PUDataset.file_samples cfg f).length = f.x.length := by
  unfold PUDataset.file_samples
  simp

/-- Claim C1 counterexample: a single file with one two-particle event
whose met is 0, with `min_met = 1` configured.  The pass is error-free
(`pass_ok`: with 2 particle slots the index array `~mask = [-2, -1]` is in
bounds, so line 93 raises no IndexError and `__iter__` runs to completion),
the pre-pass length is 0 (the event fails the met threshold), but the full
pass yields 1 sample, because `__iter__` never applies the met filter.
With a single file and `num_max_files = 1` every shuffle visits the same
file list, so both sides are deterministic here. -/
theorem claim_C1_counterexample :
    PUDataset.pass_ok ⟨1, false, 128, none, some 1⟩
        [⟨[[[0, 0, 0, 0, 0, 0], [0, 0, 0, 0, 0, 0]]], [[0, 0]], [1], [0]⟩] = true ∧
    PUDataset.get_len ⟨1, false, 128, none, some 1⟩
        [⟨[[[0, 0, 0, 0, 0, 0], [0, 0, 0, 0, 0, 0]]], [[0, 0]], [1], [0]⟩]
      ≠ (PUDataset.iterSamples ⟨1, false, 128, none, some 1⟩
        [⟨[[[0, 0, 0, 0, 0, 0], [0, 0, 0, 0, 0, 0]]], [[0, 0]], [1], [0]⟩]).length := by
  constructor
  · decide
  · decide

/-- Claim C1 as amended: when `min_met` is **not** configured, when
`num_max_files` covers the whole file list, and when every event of every
file passes the line-93 bounds check (`file_ok`, so the real pass completes
instead of aborting with IndexError), the number of samples yielded by one
full pass of `__iter__` equals `__len__`, whatever orders the two shuffles
produce, provided each file's `x` and `N` arrays agree on the number of
events. -/
theorem claim_C1_amended (cfg : PUConfig) (files files1 files2 : List PUFile)
    (hmm : cfg.min_met = none)
    (hmax : files.length ≤ cfg.num_max_files)
    (h1 : files.Perm files1) (h2 : files.Perm files2)
    (hwf : ∀ f ∈ files, f.x.length = f.N.length)
    (_hok : ∀ f ∈ files, PUDataset.file_ok cfg f = true) :
    PUDataset.get_len cfg files1 = (PUDataset.iterSamples cfg files2).length := by
  have hl1 : files1.length ≤ cfg.num_max_files := by
    rw [← h1.length_eq]; exact hmax
  have hl2 : files2.length ≤ cfg.num_max_files := by
    rw [← h2.length_eq]; exact hmax
  rw [get_len_none cfg files1 hmm]
  unfold PUDataset.iterSamples
  rw [List.take_of_length_le hl1, List.take_of_length_le hl2,
    List.length_flatten, List.map_map]
  have e2 : files2.map (List.length ∘ PUDataset.file_samples cfg)
      = files2.map (fun f => f.N.length) := by
    refine List.map_congr_left (fun g hg => ?_)
    have hgf : g ∈ files := h2.mem_iff.mpr hg
    simp [Function.comp, file_samples_length, hwf g hgf]
  rw [e2]
  calc (files1.map (fun f => f.N.length)).sum
      = (files.map (fun f => f.N.length)).sum := ((h1.map _).sum_eq).symm
    _ = (files2.map (fun f => f.N.length)).sum := (h2.map _).sum_eq

/-- Witness for the amended C1: one well-formed, error-free two-particle
file, identity shuffles. -/
theorem claim_C1_amended_witness :
    PUDataset.get_len ⟨2, false, 4, none, none⟩
        [⟨[[[1, 2, 3, 4, 5, 6], [1, 2, 3, 4, 5, 6]]], [[0, 0]], [7], [3]⟩]
      = (PUDataset.iterSamples ⟨2, false, 4, none, none⟩
        [⟨[[[1, 2, 3, 4, 5, 6], [1, 2, 3, 4, 5, 6]]], [[0, 0]], [7], [3]⟩]).length :=
  claim_C1_amended ⟨2, false, 4, none, none⟩
    [⟨[[[1, 2, 3, 4, 5, 6], [1, 2, 3, 4, 5, 6]]], [[0, 0]], [7], [3]⟩]
    [⟨[[[1, 2, 3, 4, 5, 6], [1, 2, 3, 4, 5, 6]]], [[0, 0]], [7], [3]⟩]
    [⟨[[[1, 2, 3, 4, 5, 6], [1, 2, 3, 4, 5, 6]]], [[0, 0]], [7], [3]⟩]
    rfl (by decide) (List.Perm.refl _) (List.Perm.refl _) (by decide) (by decide)

